import Mathlib

/-!
Verification of the CsvToSqlserver ingestion pipeline.

Shallow embedding of the repository's core logic:

* `tableManager.js` — `parseNumeric`, `parseDate`, `mapColumns`;
* `fileWatcher.js`  — `uploadToDatabase` (window scan, transactional
  delete-then-insert, per-row error isolation);
* `server.js`       — its own `uploadToDatabase` variant (live-metadata
  column filtering, `DD-MM-YYYY` date fix, per-row error entries).

Modelling conventions:

* Parsed records are association lists `List (String × String)`: both the
  CSV and the XLSX parser produce string-valued cells keyed by header name.
* JavaScript `null`/`undefined`/missing-property is `Option`.
* JavaScript numbers are modelled as exact rationals (`JSNum` distinguishes
  `NaN` and the infinities); `parseFloat` is the ECMA-262 prefix parse.
* JavaScript string comparison (`<` on strings, used by the code for the
  date min/max scan) is `ltStr`, lexicographic on characters.
* The external SQL database is modelled as a list of stored records.  A
  stored row's date, as seen by the `DELETE ... BETWEEN` filter, is the
  `parseDate`-normalised value of its designated date column (the value the
  pipeline binds for that column), compared lexicographically; empty or
  missing values are SQL `NULL`, which never satisfies the filter.
  Per-row insert outcomes (constraint violations etc.) are an oracle
  `Nat → Bool`; transaction-level failures are injected via `TxFail`.
-/

/-- A parsed record: ordered association list from source column name to the
raw cell string, as produced by `csv-parser` / `xlsx.utils.sheet_to_json`. -/
abbrev Record := List (String × String)

/-- JavaScript property access `row[k]`: `none` models `undefined`. -/
def getProp (r : Record) (k : String) : Option String :=
  (r.find? (fun p => p.1 = k)).map (fun p => p.2)

/-- JavaScript truthiness of a string-or-undefined value
(`undefined` and `""` are falsy). -/
def truthy : Option String → Bool
  | none => false
  | some s => !(s = "")

/-- JavaScript `a || b` on string-or-undefined values. -/
def jsOr (a b : Option String) : Option String :=
  if truthy a then a else b

/-- The character class of the JavaScript whitespace characters relevant to
`String.prototype.trim` / `parseFloat` (ASCII subset). -/
def isSpaceC (c : Char) : Bool :=
  c = ' ' || c = '\t' || c = '\n' || c = '\r' || c = '\x0b' || c = '\x0c'

/-- ASCII digit test (`\d`). -/
def isDigitC (c : Char) : Bool :=
  '0' ≤ c && c ≤ '9'

/-- Letter test for `[a-z]` with the `i` flag. -/
def isAlphaC (c : Char) : Bool :=
  ('a' ≤ c && c ≤ 'z') || ('A' ≤ c && c ≤ 'Z')

/-- JavaScript `String.prototype.trim` (on the ASCII whitespace class). -/
def jsTrim (s : String) : String :=
  ⟨((s.data.dropWhile isSpaceC).reverse.dropWhile isSpaceC).reverse⟩

/-- JavaScript string `<` (lexicographic by character code). -/
def ltChars : List Char → List Char → Bool
  | [], [] => false
  | [], _ :: _ => true
  | _ :: _, [] => false
  | a :: as, b :: bs =>
    if a < b then true else if b < a then false else ltChars as bs

/-- JavaScript `s1 < s2` on strings. -/
def ltStr (a b : String) : Bool :=
  ltChars a.data b.data

/-! ### `parseNumeric` (tableManager.js:115-145) -/

/-- `String.prototype.lastIndexOf` for a single character (`-1` if absent). -/
def lastIndexOf (c : Char) : List Char → Int
  | [] => -1
  | a :: as =>
    let r := lastIndexOf c as
    if r ≥ 0 then r + 1 else if a = c then 0 else -1

/-- `str.replace(/c/g, '')`: remove every occurrence of a character. -/
def removeAll (c : Char) (l : List Char) : List Char :=
  l.filter (fun a => !(a = c))

/-- `str.replace(c, r)` for single characters: replace the first occurrence. -/
def replaceFirst (c r : Char) : List Char → List Char
  | [] => []
  | a :: as => if a = c then r :: as else a :: replaceFirst c r as

/-- The separator heuristic of `parseNumeric` (tableManager.js:128-141):
last `.` after last `,` → strip commas (US); last `,` after last `.` →
strip dots and turn the first comma into a dot (Indonesian); neither →
strip all dots and commas. -/
def normalizeSeparators (l : List Char) : List Char :=
  let lastDot := lastIndexOf '.' l
  let lastComma := lastIndexOf ',' l
  if lastDot > lastComma then
    removeAll ',' l
  else if lastComma > lastDot then
    replaceFirst ',' '.' (removeAll '.' l)
  else
    l.filter (fun a => !(a = ',') && !(a = '.'))

/-- A JavaScript number: `NaN`, a signed infinity, or a finite value
(modelled as an exact rational). -/
inductive JSNum where
  | nan : JSNum
  | infinite (neg : Bool) : JSNum
  | finite (q : ℚ) : JSNum
deriving DecidableEq

/-- Value of a digit string. -/
def digitsVal (l : List Char) : ℕ :=
  l.foldl (fun a c => a * 10 + (c.toNat - 48)) 0

/-- Value of the exponent part following `e`/`E` in a number literal;
`0` when no digits follow (the exponent is then not consumed). -/
def expVal (l : List Char) : Int :=
  let pr : Bool × List Char :=
    match l with
    | '-' :: r => (true, r)
    | '+' :: r => (false, r)
    | _ => (false, l)
  let ds := pr.2.takeWhile isDigitC
  if ds.isEmpty then 0
  else if pr.1 then -(digitsVal ds : Int) else (digitsVal ds : Int)

/-- ECMA-262 `parseFloat`: skip leading whitespace, optional sign, then the
longest prefix that is `Infinity` or `digits [. digits] [e/E [sign] digits]`;
`NaN` when no prefix parses. -/
def parseFloatQ (l : List Char) : JSNum :=
  let l1 := l.dropWhile isSpaceC
  let pr : Bool × List Char :=
    match l1 with
    | '-' :: r => (true, r)
    | '+' :: r => (false, r)
    | _ => (false, l1)
  let neg := pr.1
  let l2 := pr.2
  if ("Infinity".data).isPrefixOf l2 then JSNum.infinite neg
  else
    let ip := l2.takeWhile isDigitC
    let l3 := l2.dropWhile isDigitC
    let fr : List Char × List Char :=
      match l3 with
      | '.' :: r => (r.takeWhile isDigitC, r.dropWhile isDigitC)
      | _ => ([], l3)
    let fp := fr.1
    let l4 := fr.2
    if ip.isEmpty && fp.isEmpty then JSNum.nan
    else
      let e : Int :=
        match l4 with
        | 'e' :: r => expVal r
        | 'E' :: r => expVal r
        | _ => 0
      let mag : ℚ :=
        mkRat (((digitsVal ip * 10 ^ fp.length + digitsVal fp) * 10 ^ e.toNat : ℕ))
          (10 ^ fp.length * 10 ^ (-e).toNat)
      JSNum.finite (if neg then -mag else mag)

/-- `parseNumeric` (tableManager.js:115-145): `null`/`undefined`/`''` give
`null`; otherwise trim, normalise the separators, `parseFloat`, and return
`null` exactly when the result `isNaN`. -/
def parseNumeric (value : Option String) : Option JSNum :=
  match value with
  | none => none
  | some s =>
    if s = "" then none
    else
      match parseFloatQ (normalizeSeparators (jsTrim s).data) with
      | JSNum.nan => none
      | x => some x

/-! ### `parseDate` (tableManager.js:148-178) and the server date fix
(server.js:204-208) -/

/-- The month-name map of `parseDate` (English/Indonesian three-letter
prefixes, tableManager.js:157-162). -/
def monthMap (s : String) : Option String :=
  if s = "jan" then some "01"
  else if s = "feb" then some "02"
  else if s = "mar" then some "03"
  else if s = "apr" then some "04"
  else if s = "may" then some "05"
  else if s = "mei" then some "05"
  else if s = "jun" then some "06"
  else if s = "jul" then some "07"
  else if s = "aug" then some "08"
  else if s = "agu" then some "08"
  else if s = "sep" then some "09"
  else if s = "oct" then some "10"
  else if s = "okt" then some "10"
  else if s = "nov" then some "11"
  else if s = "dec" then some "12"
  else if s = "des" then some "12"
  else none

/-- After the day digits: match `\s*([a-z]+)\s*(\d{4})` (greedy, classes
mutually disjoint so no backtracking is possible here). -/
def matchAfterDay (l : List Char) : Option (List Char × List Char) :=
  let l1 := l.dropWhile isSpaceC
  let letters := l1.takeWhile isAlphaC
  if letters.isEmpty then none
  else
    let l2 := (l1.dropWhile isAlphaC).dropWhile isSpaceC
    match l2 with
    | a :: b :: c :: d :: _ =>
      if isDigitC a && isDigitC b && isDigitC c && isDigitC d then
        some (letters, [a, b, c, d])
      else none
    | _ => none

/-- Try `(\d{1,2})\s*([a-z]+)\s*(\d{4})` anchored at the head of `l`
(two day digits preferred, backtracking to one, as the regex engine does). -/
def matchDMYAt (l : List Char) : Option (List Char × List Char × List Char) :=
  match l with
  | c1 :: rest =>
    if isDigitC c1 then
      match rest with
      | c2 :: rest2 =>
        if isDigitC c2 then
          match matchAfterDay rest2 with
          | some (m, y) => some ([c1, c2], m, y)
          | none =>
            match matchAfterDay rest with
            | some (m, y) => some ([c1], m, y)
            | none => none
        else
          match matchAfterDay rest with
          | some (m, y) => some ([c1], m, y)
          | none => none
      | [] => none
    else none
  | [] => none

/-- `strValue.match(/(\d{1,2})\s*([a-z]+)\s*(\d{4})/i)`: leftmost match. -/
def findDMY : List Char → Option (List Char × List Char × List Char)
  | [] => none
  | c :: rest =>
    match matchDMYAt (c :: rest) with
    | some r => some r
    | none => findDMY rest

/-- `match[1].padStart(2, '0')` for the captured 1-2 digit day. -/
def padDay (d : List Char) : String :=
  if d.length = 1 then ⟨'0' :: d⟩ else ⟨d⟩

/-- Core of `parseDate` on a non-empty value (tableManager.js:154-177):
trim; if the day/month-name/year pattern matches and the month name's
three-letter lower-cased prefix is known, emit `YYYY-MM-DD`; otherwise
return the trimmed text unchanged (deferring to SQL Server). -/
def parseDateStr (s : String) : String :=
  let t := jsTrim s
  match findDMY t.data with
  | some (d, m, y) =>
    match monthMap ⟨(m.map Char.toLower).take 3⟩ with
    | some mm => ⟨y ++ '-' :: mm.data ++ '-' :: (padDay d).data⟩
    | none => t
  | none => t

/-- `parseDate` (tableManager.js:148-178): `null`/`undefined`/`''` → `null`. -/
def parseDate (value : Option String) : Option String :=
  match value with
  | none => none
  | some v => if v = "" then none else some (parseDateStr v)

/-- The strict `^\d{2}-\d{2}-\d{4}$` test of server.js:205. -/
def isDDMMYYYY (s : String) : Bool :=
  match s.data with
  | [a, b, '-', c, d, '-', e, f, g, h] =>
    isDigitC a && isDigitC b && isDigitC c && isDigitC d &&
      isDigitC e && isDigitC f && isDigitC g && isDigitC h
  | _ => false

/-- The server's date normalisation path (server.js:204-208): rewrite a
strict `DD-MM-YYYY` string to `YYYY-MM-DD`, leave anything else unchanged. -/
def fixDateFormat (s : String) : String :=
  if isDDMMYYYY s then
    match s.data with
    | [a, b, '-', c, d, '-', e, f, g, h] => ⟨[e, f, g, h, '-', c, d, '-', a, b]⟩
    | _ => s
  else s

/-! ### Schema registry and `mapColumns` (tableManager.js:95-112) -/

/-- A declarative table schema as stored in `tableSchemas.json`
(shape from the registry contract; only `columnMapping` is consumed by the
logic modelled here). -/
structure TableSchema where
  columns : List (String × String)
  primaryKey : List String
  indexes : List String
  numericColumns : List String
  dateColumns : List String
  columnMapping : Option (List (String × String))

/-- `csvRow.hasOwnProperty(k)`. -/
def hasOwnProperty (r : Record) (k : String) : Bool :=
  r.any (fun p => p.1 = k)

/-- JavaScript `obj[k] = v` on an object modelled as an ordered
association list: overwrite in place if present, else append. -/
def objSet (r : Record) (k v : String) : Record :=
  if hasOwnProperty r k then
    r.map (fun p => if p.1 = k then (k, v) else p)
  else r ++ [(k, v)]

/-- `mapColumns` (tableManager.js:95-112): with no schema or no
`columnMapping` the row passes through unchanged; otherwise a fresh object
is built containing, for each mapping entry whose source column the row
has, the destination name with the row's value — and nothing else.
The `schema` argument stands for `loadSchemas()[tableName]`. -/
def mapColumns (csvRow : Record) (schema : Option TableSchema) : Record :=
  match schema with
  | none => csvRow
  | some sc =>
    match sc.columnMapping with
    | none => csvRow
    | some m =>
      m.foldl
        (fun acc p =>
          match getProp csvRow p.1 with
          | some v => objSet acc p.2 v
          | none => acc)
        []

/-! ### The load coordinator (fileWatcher.js `uploadToDatabase`, lines
219-405, and server.js `uploadToDatabase`, lines 174-362)

The destination database is a list of stored records.  Connection
acquisition/release and query transport are external; per-row insert
success is an oracle `insertOk : Nat → Bool` (row index ↦ did the INSERT
succeed), and transaction-level failures are injected with `TxFail`. -/

/-- Transaction-level fault injection: no fault, an exception raised by the
DELETE statement, or one raised by COMMIT. -/
inductive TxFail where
  | noFail : TxFail
  | atDelete : TxFail
  | atCommit : TxFail
deriving DecidableEq

/-- The per-table designated date column
(fileWatcher.js:287, server.js:233). -/
def dateColumnOf (t : String) : String :=
  if t = "SALES_INVOICE_ACCURATE_ONLINE" then "Tanggal" else "SALES_DATE"

/-- The per-table designated store/branch column
(fileWatcher.js:288, server.js:234). -/
def storeColumnOf (t : String) : String :=
  if t = "SALES_INVOICE_ACCURATE_ONLINE" then "Gudang" else "ORG_CODE_NAME"

/-- `if (!minDate || parsedDate < minDate) minDate = parsedDate`. -/
def jsMin (mn : Option String) (p : String) : Option String :=
  match mn with
  | none => some p
  | some m => if ltStr p m then some p else some m

/-- `if (!maxDate || parsedDate > maxDate) maxDate = parsedDate`. -/
def jsMax (mx : Option String) (p : String) : Option String :=
  match mx with
  | none => some p
  | some m => if ltStr m p then some p else some m

/-- The date a record contributes to the watcher's window scan
(fileWatcher.js:258-266): `row.SALES_DATE || row.Tanggal`, if truthy,
parsed by `parseDate`, kept only if the parse result is truthy. -/
def dateContrib (r : Record) : Option String :=
  match jsOr (getProp r "SALES_DATE") (getProp r "Tanggal") with
  | some v =>
    if v = "" then none
    else if parseDateStr v = "" then none else some (parseDateStr v)
  | none => none

/-- The store/branch value a record contributes to the scan
(fileWatcher.js:268-273, server.js:214-219): table-specific column,
added only when truthy. -/
def storeVal (t : String) (r : Record) : Option String :=
  if t = "SNJ_SRP_DETAIL" then
    match getProp r "ORG_CODE_NAME" with
    | some v => if v = "" then none else some v
    | none => none
  else if t = "SALES_INVOICE_ACCURATE_ONLINE" then
    match getProp r "Gudang" with
    | some v => if v = "" then none else some v
    | none => none
  else none

/-- `stores.add(v)` on a `Set` modelled as a dedup-keeping list. -/
def addStore (l : List String) (s : String) : List String :=
  if s ∈ l then l else l ++ [s]

/-- One step of the watcher's window scan (fileWatcher.js:257-274). -/
def scanW (t : String) (acc : Option String × Option String × List String)
    (r : Record) : Option String × Option String × List String :=
  let upd : Option String × Option String :=
    match dateContrib r with
    | some p => (jsMin acc.1 p, jsMax acc.2.1 p)
    | none => (acc.1, acc.2.1)
  let st :=
    match storeVal t r with
    | some v => addStore acc.2.2 v
    | none => acc.2.2
  (upd.1, upd.2, st)

/-- The watcher's whole window scan over the mapped batch
(fileWatcher.js:252-276): running min/max of normalised dates plus the
deduplicated store set. -/
def computeWindowW (t : String) (rows : List Record) :
    Option String × Option String × List String :=
  rows.foldl (scanW t) (none, none, [])

/-- The `DELETE ... WHERE dateCol BETWEEN @minDate AND @maxDate
[AND storeCol IN (stores)]` filter (fileWatcher.js:286-316) evaluated on a
stored row.  The stored date of a row is the `parseDate`-normalised value
the pipeline bound for the designated date column (empty/missing ⇒ SQL
`NULL`, which never matches); the stored store value is the raw string
(empty/missing ⇒ `NULL`, which never matches an `IN` list). -/
def deletePredW (t : String) (mn mx : String) (storeList : List String)
    (r : Record) : Bool :=
  (match parseDate (getProp r (dateColumnOf t)) with
   | some d => !(ltStr d mn) && !(ltStr mx d)
   | none => false) &&
  (storeList.isEmpty ||
   (match getProp r (storeColumnOf t) with
    | some s => !(s = "") && storeList.contains s
    | none => false))

/-- The watcher's row-by-row insert loop (fileWatcher.js:322-382), starting
at row index `i`: every row is attempted independently; a success bumps
`successCount` and stores the row, a failure bumps `errorCount` (and is
logged with its 1-based index).  Returns
(successCount, errorCount, inserted rows in order). -/
def insertLoopW (ok : Nat → Bool) : Nat → List Record → Nat × Nat × List Record
  | _, [] => (0, 0, [])
  | i, r :: rest =>
    let res := insertLoopW ok (i + 1) rest
    if ok i then (res.1 + 1, res.2.1, r :: res.2.2)
    else (res.1, res.2.1 + 1, res.2.2)

/-- Outcome of the watcher's `uploadToDatabase` (fileWatcher.js:387-393).
`dateRange` is kept as the min/max pair instead of the interpolated
string. -/
structure OutcomeW where
  success : Bool
  successCount : Nat
  errorCount : Nat
  minDate : Option String
  maxDate : Option String
  stores : List String
deriving DecidableEq

/-- Result of one watcher load: the table after the call, the returned
outcome (`none` models a propagated exception: the file is failed), and
whether a DELETE statement was executed. -/
structure LoadResultW where
  table : List Record
  outcome : Option OutcomeW
  didDelete : Bool
deriving DecidableEq

/-- The watcher's `uploadToDatabase` (fileWatcher.js:219-405) against a
table state: map the columns, scan the window, then inside a transaction
delete the overlap (only when both `minDate` and `maxDate` were found) and
insert row by row; a delete- or commit-level exception rolls the whole
transaction back.  `schema` stands for the `tableSchemas.json` entry used
by `mapColumns`. -/
def uploadW (t : String) (schema : Option TableSchema) (data : List Record)
    (table : List Record) (txfail : TxFail) (ok : Nat → Bool) : LoadResultW :=
  let mapped := data.map (fun r => mapColumns r schema)
  let w := computeWindowW t mapped
  match w.1, w.2.1 with
  | some mn, some mx =>
    if txfail = TxFail.atDelete then ⟨table, none, false⟩
    else
      let kept := table.filter (fun r => !(deletePredW t mn mx w.2.2 r))
      let res := insertLoopW ok 0 mapped
      if txfail = TxFail.atCommit then ⟨table, none, true⟩
      else ⟨kept ++ res.2.2, some ⟨true, res.1, res.2.1, some mn, some mx, w.2.2⟩, true⟩
  | _, _ =>
    let res := insertLoopW ok 0 mapped
    if txfail = TxFail.atCommit then ⟨table, none, false⟩
    else ⟨table ++ res.2.2, some ⟨true, res.1, res.2.1, w.1, w.2.1, w.2.2⟩, false⟩

/-! ### The server variant (server.js:174-362) -/

/-- The date a record contributes to the server's window scan
(server.js:200-212): `row.SALES_DATE || row.Tanggal`, if truthy, passed
through the strict `DD-MM-YYYY` → `YYYY-MM-DD` rewrite (no `parseDate`
here). -/
def dateContribS (r : Record) : Option String :=
  match jsOr (getProp r "SALES_DATE") (getProp r "Tanggal") with
  | some v => if v = "" then none else some (fixDateFormat v)
  | none => none

/-- One step of the server's window scan (server.js:200-220). -/
def scanS (t : String) (acc : Option String × Option String × List String)
    (r : Record) : Option String × Option String × List String :=
  let upd : Option String × Option String :=
    match dateContribS r with
    | some p => (jsMin acc.1 p, jsMax acc.2.1 p)
    | none => (acc.1, acc.2.1)
  let st :=
    match storeVal t r with
    | some v => addStore acc.2.2 v
    | none => acc.2.2
  (upd.1, upd.2, st)

/-- The server's window scan over the raw batch (server.js:195-222). -/
def computeWindowS (t : String) (rows : List Record) :
    Option String × Option String × List String :=
  rows.foldl (scanS t) (none, none, [])

/-- Does the live destination metadata (`INFORMATION_SCHEMA.COLUMNS` rows,
name/type pairs) declare column `c`?  (`columnTypes[col]` truthiness,
server.js:283; `DATA_TYPE` strings are never empty.) -/
def hasColumn (colTypes : List (String × String)) (c : String) : Bool :=
  colTypes.any (fun p => p.1 = c)

/-- The column filter of the server's insert phase (server.js:279-289):
keep exactly the record entries whose column the destination declares. -/
def validColumnsS (colTypes : List (String × String)) (row : Record) : Record :=
  row.filter (fun p => hasColumn colTypes p.1)

/-- The column-name list of the single-row INSERT generated by the server
variant (server.js:296-299). -/
def insertColumnsS (colTypes : List (String × String)) (row : Record) :
    List String :=
  (validColumnsS colTypes row).map (fun p => p.1)

/-- The column-name list of the single-row INSERT generated by the watcher
variant (fileWatcher.js:330-336): all keys of the record, unfiltered. -/
def insertColumnsW (row : Record) : List String :=
  row.map (fun p => p.1)

/-- The server's row-by-row insert loop (server.js:271-338), starting at
row index `i`.  A row none of whose columns is declared is skipped
(`continue`, server.js:291-294) — neither counted nor given an error
entry; otherwise the filtered row is inserted, a failure being recorded
with its 1-based index.  Returns
(successCount, errorCount, error row indices, inserted rows). -/
def insertLoopS (colTypes : List (String × String)) (ok : Nat → Bool) :
    Nat → List Record → Nat × Nat × List Nat × List Record
  | _, [] => (0, 0, [], [])
  | i, r :: rest =>
    let res := insertLoopS colTypes ok (i + 1) rest
    let valid := validColumnsS colTypes r
    if valid.isEmpty then res
    else if ok i then (res.1 + 1, res.2.1, res.2.2.1, valid :: res.2.2.2)
    else (res.1, res.2.1 + 1, (i + 1) :: res.2.2.1, res.2.2.2)

/-- Outcome of the server's `uploadToDatabase` (server.js:343-350):
counts, store list, and the first ten per-row error entries (their 1-based
row indices; the message/data fields come from the driver and are not
modelled). -/
structure OutcomeS where
  success : Bool
  successCount : Nat
  errorCount : Nat
  stores : List String
  errors : List Nat
deriving DecidableEq

/-- Result of one server-variant load. -/
structure LoadResultS where
  table : List Record
  outcome : Option OutcomeS
  didDelete : Bool
deriving DecidableEq

/-- The `DELETE` filter of the server variant (server.js:232-264) on a
stored row; the stored date is the string the pipeline bound (dates are
bound as text in this variant), normalised as SQL would when comparing to
the `@minDate`/`@maxDate` parameters. -/
def deletePredS (t : String) (mn mx : String) (storeList : List String)
    (r : Record) : Bool :=
  (match getProp r (dateColumnOf t) with
   | some d =>
     !(d = "") && !(ltStr (fixDateFormat d) mn) && !(ltStr mx (fixDateFormat d))
   | none => false) &&
  (storeList.isEmpty ||
   (match getProp r (storeColumnOf t) with
    | some s => !(s = "") && storeList.contains s
    | none => false))

/-- The server's `uploadToDatabase` (server.js:174-362): window scan over
the raw batch (no column mapping in this variant), then a transactional
delete-of-overlap and the filtered row-by-row insert; the outcome carries
the error entries truncated to ten. -/
def uploadS (t : String) (colTypes : List (String × String))
    (data : List Record) (table : List Record) (txfail : TxFail)
    (ok : Nat → Bool) : LoadResultS :=
  let w := computeWindowS t data
  match w.1, w.2.1 with
  | some mn, some mx =>
    if txfail = TxFail.atDelete then ⟨table, none, false⟩
    else
      let kept := table.filter (fun r => !(deletePredS t mn mx w.2.2 r))
      let res := insertLoopS colTypes ok 0 data
      if txfail = TxFail.atCommit then ⟨table, none, true⟩
      else
        ⟨kept ++ res.2.2.2,
         some ⟨true, res.1, res.2.1, w.2.2, res.2.2.1.take 10⟩, true⟩
  | _, _ =>
    let res := insertLoopS colTypes ok 0 data
    if txfail = TxFail.atCommit then ⟨table, none, false⟩
    else
      ⟨table ++ res.2.2.2,
       some ⟨true, res.1, res.2.1, w.2.2, res.2.2.1.take 10⟩, false⟩

/-- Swap a decimal point for a comma (identity on all other characters). -/
def swapC (c : Char) : Char :=
  if c = '.' then ',' else c

/-- The same numeric text written with the other separator convention:
every `.` replaced by `,` (used to state the single-separator property). -/
def swapSeps (s : String) : String :=
  ⟨s.data.map swapC⟩

/-- A record whose designated date column (for table `t`) carries the
value the window scan will actually use: the column holds a truthy value
`v` whose `parseDate` normalisation is truthy, and `row.SALES_DATE ||
row.Tanggal` evaluates to that same `v` (no shadowing by the other
candidate column).  Hypothesis predicate for the idempotence theorem. -/
def goodDateRow (t : String) (r : Record) : Bool :=
  match getProp r (dateColumnOf t), jsOr (getProp r "SALES_DATE") (getProp r "Tanggal") with
  | some v, some w => decide (v = w) && !(v = "") && !(parseDateStr v = "")
  | _, _ => false

/-! ### Supporting lemmas -/

theorem scanW_date_none (t : String) (acc : Option String × Option String × List String)
    (r : Record) (h : dateContrib r = none) :
    (scanW t acc r).1 = acc.1 ∧ (scanW t acc r).2.1 = acc.2.1 := by
  simp [scanW, h]

theorem foldl_scanW_date_none (t : String) :
    ∀ (rows : List Record) (acc : Option String × Option String × List String),
      (∀ r ∈ rows, dateContrib r = none) →
      (rows.foldl (scanW t) acc).1 = acc.1 ∧
        (rows.foldl (scanW t) acc).2.1 = acc.2.1
  | [], acc, _ => ⟨rfl, rfl⟩
  | r :: rest, acc, h => by
    have hr : dateContrib r = none := h r (List.mem_cons_self r rest)
    have hrest := foldl_scanW_date_none t rest (scanW t acc r)
      (fun x hx => h x (List.mem_cons_of_mem r hx))
    rcases scanW_date_none t acc r hr with ⟨h1, h2⟩
    simp only [List.foldl_cons]
    exact ⟨hrest.1.trans h1, hrest.2.trans h2⟩

/-! ### Claim C2 -/

/-- C2: if the transaction fails — the DELETE statement raises, or anything
up to and including COMMIT raises — the watcher's load rolls back: the
destination table is exactly as before the attempt and no outcome is
returned (the whole file is treated as failed). -/
theorem claim_C2 (t : String) (schema : Option TableSchema)
    (data table : List Record) (txfail : TxFail) (ok : Nat → Bool)
    (hfail : txfail = TxFail.atCommit ∨
      (txfail = TxFail.atDelete ∧
        (computeWindowW t (data.map (fun r => mapColumns r schema))).1.isSome ∧
        (computeWindowW t (data.map (fun r => mapColumns r schema))).2.1.isSome)) :
    (uploadW t schema data table txfail ok).table = table ∧
      (uploadW t schema data table txfail ok).outcome = none := by
  rcases hfail with h | ⟨h, h1, h2⟩
  · subst h
    cases hw1 : (computeWindowW t (data.map (fun r => mapColumns r schema))).1 <;>
      cases hw2 : (computeWindowW t (data.map (fun r => mapColumns r schema))).2.1 <;>
        simp [uploadW, hw1, hw2]
  · subst h
    rcases Option.isSome_iff_exists.mp h1 with ⟨mn, hmn⟩
    rcases Option.isSome_iff_exists.mp h2 with ⟨mx, hmx⟩
    simp [uploadW, hmn, hmx]

/-- Witness for C2 at a concrete load with a delete-phase failure. -/
theorem claim_C2_witness :
    (uploadW "SNJ_SRP_DETAIL" none [[("SALES_DATE", "2025-11-25")]]
        [[("A", "x")]] TxFail.atDelete (fun _ => true)).table = [[("A", "x")]] ∧
      (uploadW "SNJ_SRP_DETAIL" none [[("SALES_DATE", "2025-11-25")]]
        [[("A", "x")]] TxFail.atDelete (fun _ => true)).outcome = none :=
  claim_C2 "SNJ_SRP_DETAIL" none [[("SALES_DATE", "2025-11-25")]]
    [[("A", "x")]] TxFail.atDelete (fun _ => true)
    (Or.inr ⟨rfl, by decide, by decide⟩)

/-! ### Claim C5 -/

/-- C5 counterexample: for `SNJ_SRP_DETAIL` the designated date column is
`SALES_DATE`; a batch whose only record has no `SALES_DATE` at all — only a
`Tanggal` value — still produces a load window (the scan reads
`row.SALES_DATE || row.Tanggal`), and a DELETE is executed. -/
theorem claim_C5_counterexample :
    (∀ r ∈ ([[("Tanggal", "2025-11-25"), ("X", "1")]] : List Record),
        getProp r (dateColumnOf "SNJ_SRP_DETAIL") = none) ∧
      (uploadW "SNJ_SRP_DETAIL" none [[("Tanggal", "2025-11-25"), ("X", "1")]]
          [] TxFail.noFail (fun _ => true)).didDelete = true := by
  constructor
  · decide
  · decide

/-- C5 (amended): the watcher's window is absent — and the load is an
insert-only append with no DELETE — exactly when no record contributes a
date through `row.SALES_DATE || row.Tanggal` (the scan consults both
candidate date columns, not only the table's designated one). -/
theorem claim_C5 (t : String) (schema : Option TableSchema)
    (data table : List Record) (ok : Nat → Bool)
    (h : ∀ r ∈ data.map (fun r => mapColumns r schema), dateContrib r = none) :
    (computeWindowW t (data.map (fun r => mapColumns r schema))).1 = none ∧
      (computeWindowW t (data.map (fun r => mapColumns r schema))).2.1 = none ∧
      (uploadW t schema data table TxFail.noFail ok).didDelete = false ∧
      (uploadW t schema data table TxFail.noFail ok).table =
        table ++ (insertLoopW ok 0 (data.map (fun r => mapColumns r schema))).2.2 := by
  have hw := foldl_scanW_date_none t
    (data.map (fun r => mapColumns r schema)) (none, none, []) h
  refine ⟨hw.1, hw.2, ?_, ?_⟩ <;>
    simp [uploadW, computeWindowW] at hw ⊢ <;>
      simp [uploadW, computeWindowW, hw.1, hw.2]

/-- Witness for C5 on a batch with no date values at all. -/
theorem claim_C5_witness :
    (computeWindowW "SNJ_SRP_DETAIL"
        (([[("A", "x")]] : List Record).map (fun r => mapColumns r none))).1 = none ∧
      (computeWindowW "SNJ_SRP_DETAIL"
        (([[("A", "x")]] : List Record).map (fun r => mapColumns r none))).2.1 = none ∧
      (uploadW "SNJ_SRP_DETAIL" none [[("A", "x")]] [] TxFail.noFail
        (fun _ => true)).didDelete = false ∧
      (uploadW "SNJ_SRP_DETAIL" none [[("A", "x")]] [] TxFail.noFail
        (fun _ => true)).table =
        [] ++ (insertLoopW (fun _ => true) 0
          (([[("A", "x")]] : List Record).map (fun r => mapColumns r none))).2.2 :=
  claim_C5 "SNJ_SRP_DETAIL" none [[("A", "x")]] [] (fun _ => true) (by decide)

/-! ### Claim C7 -/

/-- C7 counterexample: the code only filters `NaN` (`isNaN(numValue)`), not
non-finite values; `parseFloat("Infinity")` is `Infinity`, so
`parseNumeric` returns a non-finite number instead of `null`. -/
theorem claim_C7_counterexample :
    parseNumeric (some "Infinity") = some (JSNum.infinite false) ∧
      (∀ q : ℚ, some (JSNum.infinite false) ≠ some (JSNum.finite q)) := by
  constructor
  · decide
  · intro q h
    exact JSNum.noConfusion (Option.some.inj h)

/-- C7 (amended): `parseNumeric` is total (it is a Lean function, so it
cannot raise); `null`/`undefined`/`''` map to `null`; whenever `parseFloat`
of the separator-normalised text is `NaN` the result is `null`; the result
is never `NaN` — but it can be a non-finite number (e.g. for `"Infinity"`),
the code does not check finiteness. -/
theorem claim_C7 :
    parseNumeric none = none ∧
      parseNumeric (some "") = none ∧
      (∀ s : String, parseNumeric (some s) ≠ some JSNum.nan) ∧
      (∀ s : String,
        parseFloatQ (normalizeSeparators (jsTrim s).data) = JSNum.nan →
          parseNumeric (some s) = none) := by
  refine ⟨rfl, rfl, ?_, ?_⟩
  · intro s
    by_cases hs : s = ""
    · simp [parseNumeric, hs]
    · cases hp : parseFloatQ (normalizeSeparators (jsTrim s).data) <;>
        simp [parseNumeric, hs, hp]
  · intro s hp
    by_cases hs : s = ""
    · simp [parseNumeric, hs]
    · simp [parseNumeric, hs, hp]

/-- Witness for C7 at `"abc"`, whose normalised text fails to parse. -/
theorem claim_C7_witness :
    parseFloatQ (normalizeSeparators (jsTrim "abc").data) = JSNum.nan ∧
      parseNumeric (some "abc") = none :=
  ⟨by decide, claim_C7.2.2.2 "abc" (by decide)⟩

/-! ### Claim C8 -/

/-- `fixDateFormat` leaves any string that does not match the strict
`DD-MM-YYYY` pattern unchanged. -/
theorem fixDateFormat_of_not_ddmmyyyy (s : String)
    (h : isDDMMYYYY s = false) : fixDateFormat s = s := by
  simp [fixDateFormat, h]

/-- C8: `parseDate` turns `"25 Nov 2025"` into ISO `"2025-11-25"` (with
zero-padded day), maps `""` to `null`, and leaves `"25-11-2025"` alone —
that input is instead normalised by the server's separate strict
`DD-MM-YYYY` path (`fixDateFormat`); any input matching neither pattern
comes back as the trimmed raw text from both functions. -/
theorem claim_C8 :
    parseDate (some "25 Nov 2025") = some "2025-11-25" ∧
      parseDate (some "") = none ∧
      parseDate (some "25-11-2025") = some "25-11-2025" ∧
      fixDateFormat "25-11-2025" = "2025-11-25" ∧
      (∀ s : String, s ≠ "" → findDMY (jsTrim s).data = none →
        isDDMMYYYY (jsTrim s) = false →
          parseDate (some s) = some (jsTrim s) ∧
            fixDateFormat (jsTrim s) = jsTrim s) := by
  refine ⟨by decide, by decide, by decide, by decide, ?_⟩
  intro s hs hf hd
  constructor
  · simp [parseDate, hs, parseDateStr, hf]
  · exact fixDateFormat_of_not_ddmmyyyy _ hd

/-- Witness for C8's unmatched-input clause at `"hello"`. -/
theorem claim_C8_witness :
    parseDate (some "hello") = some (jsTrim "hello") ∧
      fixDateFormat (jsTrim "hello") = jsTrim "hello" :=
  claim_C8.2.2.2.2 "hello" (by decide) (by decide) (by decide)

/-! ### Claim C10 -/

/-- A record has a key iff `getProp` finds a value for it. -/
theorem hasOwnProperty_iff_getProp (r : Record) (k : String) :
    hasOwnProperty r k = true ↔ ∃ v, getProp r k = some v := by
  induction r with
  | nil => simp [hasOwnProperty, getProp]
  | cons p rest ih =>
    by_cases hp : p.1 = k
    · simp [hasOwnProperty, getProp, List.find?_cons, hp]
    · simpa [hasOwnProperty, getProp, List.find?_cons, hp] using ih

/-- `objSet` key membership: the written key is present, other keys are
untouched. -/
theorem hasOwnProperty_objSet (r : Record) (k v k' : String) :
    hasOwnProperty (objSet r k v) k' = true ↔
      (hasOwnProperty r k' = true ∨ k' = k) := by
  by_cases hr : hasOwnProperty r k = true
  · have hkeys : hasOwnProperty (objSet r k v) k' = hasOwnProperty r k' := by
      rw [objSet, if_pos hr]
      simp only [hasOwnProperty, List.any_map]
      congr 1
      funext p
      by_cases hp : p.1 = k <;> simp [Function.comp, hp]
    rw [hkeys]
    constructor
    · exact Or.inl
    · rintro (h | rfl)
      · exact h
      · exact hr
  · rw [objSet, if_neg hr]
    simp only [hasOwnProperty, List.any_append, List.any_cons, List.any_nil,
      Bool.or_false, Bool.or_eq_true, decide_eq_true_eq]
    constructor
    · rintro (h | h)
      · exact Or.inl h
      · exact Or.inr h.symm
    · rintro (h | h)
      · exact Or.inl h
      · exact Or.inr h.symm

/-- Key-set of the `mapColumns` fold over the mapping entries. -/
theorem hasOwnProperty_mapColumns_foldl (row : Record)
    (m : List (String × String)) (k : String) :
    ∀ acc : Record,
      hasOwnProperty
          (m.foldl
            (fun acc p =>
              match getProp row p.1 with
              | some v => objSet acc p.2 v
              | none => acc)
            acc) k = true ↔
        (hasOwnProperty acc k = true ∨
          ∃ p ∈ m, p.2 = k ∧ hasOwnProperty row p.1 = true) := by
  induction m with
  | nil => intro acc; simp
  | cons p rest ih =>
    intro acc
    simp only [List.foldl_cons]
    rw [ih]
    cases hv : getProp row p.1 with
    | none =>
      have hro : hasOwnProperty row p.1 = false := by
        rw [Bool.eq_false_iff]
        intro hc
        rcases (hasOwnProperty_iff_getProp row p.1).mp hc with ⟨w, hw⟩
        rw [hv] at hw
        exact Option.noConfusion hw
      simp [hro]
    | some v =>
      have hro : hasOwnProperty row p.1 = true :=
        (hasOwnProperty_iff_getProp row p.1).mpr ⟨v, hv⟩
      rw [hasOwnProperty_objSet]
      simp only [List.mem_cons]
      constructor
      · rintro ((h | rfl) | h)
        · exact Or.inl h
        · exact Or.inr ⟨p, Or.inl rfl, rfl, hro⟩
        · rcases h with ⟨q, hq, hqk, hqr⟩
          exact Or.inr ⟨q, Or.inr hq, hqk, hqr⟩
      · rintro (h | ⟨q, hq | hq, hqk, hqr⟩)
        · exact Or.inl (Or.inl h)
        · subst hq
          exact Or.inl (Or.inr hqk.symm)
        · exact Or.inr ⟨q, hq, hqk, hqr⟩

/-- C10: with a declared `columnMapping` the mapped record's keys are
exactly the mapping's destination names whose source column the input row
carries — every other input column, even one named like a destination
column, is discarded; with no mapping (or no schema) the row passes
through unchanged. -/
theorem claim_C10 :
    (∀ (row : Record) (sc : TableSchema) (m : List (String × String))
        (k : String), sc.columnMapping = some m →
      (hasOwnProperty (mapColumns row (some sc)) k = true ↔
        ∃ p ∈ m, p.2 = k ∧ hasOwnProperty row p.1 = true)) ∧
      (∀ (row : Record) (sc : TableSchema), sc.columnMapping = none →
        mapColumns row (some sc) = row) ∧
      (∀ row : Record, mapColumns row none = row) := by
  refine ⟨?_, ?_, ?_⟩
  · intro row sc m k hm
    simp only [mapColumns]
    rw [hm]
    rw [hasOwnProperty_mapColumns_foldl row m k []]
    simp [hasOwnProperty]
  · intro row sc hm
    simp only [mapColumns]
    rw [hm]
  · intro row
    rfl

/-- Witness for C10 on a concrete row and mapping: the destination name is
present, the unmapped input column (which names a real destination column)
is gone. -/
theorem claim_C10_witness :
    (hasOwnProperty
        (mapColumns [("a", "1"), ("X", "2")]
          (some ⟨[("X", "varchar")], [], [], [], [], some [("a", "X")]⟩)) "X" = true ↔
      ∃ p ∈ [("a", "X")], p.2 = "X" ∧
        hasOwnProperty [("a", "1"), ("X", "2")] p.1 = true) :=
  claim_C10.1 [("a", "1"), ("X", "2")]
    ⟨[("X", "varchar")], [], [], [], [], some [("a", "X")]⟩ [("a", "X")] "X" rfl

/-! ### Claim C9 -/

/-- Every row stored by the server's insert loop is the
`validColumnsS`-filtered projection of some batch record. -/
theorem insertLoopS_inserted_shape (colTypes : List (String × String))
    (ok : Nat → Bool) :
    ∀ (i : Nat) (data : List Record) (r : Record),
      r ∈ (insertLoopS colTypes ok i data).2.2.2 →
        ∃ r0 ∈ data, r = validColumnsS colTypes r0
  | _, [], _, h => absurd h (List.not_mem_nil _)
  | i, r0 :: rest, r, h => by
    have ih := insertLoopS_inserted_shape colTypes ok (i + 1) rest r
    by_cases hv : (validColumnsS colTypes r0).isEmpty
    · rw [insertLoopS] at h
      simp only [hv, if_true] at h
      rcases ih h with ⟨r1, hr1, hshape⟩
      exact ⟨r1, List.mem_cons_of_mem _ hr1, hshape⟩
    · rw [insertLoopS] at h
      simp only [hv, if_false] at h
      cases hok : ok i
      · simp only [hok, if_false] at h
        rcases ih h with ⟨r1, hr1, hshape⟩
        exact ⟨r1, List.mem_cons_of_mem _ hr1, hshape⟩
      · simp only [hok, if_true] at h
        rcases List.mem_cons.mp h with hh | hh
        · exact ⟨r0, List.mem_cons_self _ _, hh⟩
        · rcases ih hh with ⟨r1, hr1, hshape⟩
          exact ⟨r1, List.mem_cons_of_mem _ hr1, hshape⟩

/-- C9 (amended): in the server variant the generated INSERT names only
columns the live destination metadata declares — for every record of the
batch (all rows the loop stores are filtered projections).  The watcher
variant does not filter (see the counterexample). -/
theorem claim_C9 :
    (∀ (colTypes : List (String × String)) (row : Record) (c : String),
        c ∈ insertColumnsS colTypes row → hasColumn colTypes c = true) ∧
      (∀ (colTypes : List (String × String)) (ok : Nat → Bool) (i : Nat)
          (data : List Record) (r : Record),
        r ∈ (insertLoopS colTypes ok i data).2.2.2 →
          ∀ c ∈ insertColumnsW r, hasColumn colTypes c = true) := by
  have h1 : ∀ (colTypes : List (String × String)) (row : Record) (c : String),
      c ∈ insertColumnsS colTypes row → hasColumn colTypes c = true := by
    intro colTypes row c hc
    rcases List.mem_map.mp hc with ⟨p, hp, rfl⟩
    exact (List.mem_filter.mp hp).2
  refine ⟨h1, ?_⟩
  intro colTypes ok i data r hr c hc
  rcases insertLoopS_inserted_shape colTypes ok i data r hr with ⟨r0, _, rfl⟩
  exact h1 colTypes r0 c hc

/-- C9 counterexample: the watcher's INSERT statement names every key of
the record (fileWatcher.js:330-336) — here a column the destination
metadata does not declare. -/
theorem claim_C9_counterexample :
    "EXTRA" ∈ insertColumnsW [("EXTRA", "1"), ("SALES_DATE", "2025-11-25")] ∧
      hasColumn [("SALES_DATE", "date"), ("ORG_CODE_NAME", "varchar")]
        "EXTRA" = false := by
  constructor
  · decide
  · decide

/-- Witness for C9 at a concrete record and metadata. -/
theorem claim_C9_witness :
    "A" ∈ insertColumnsS [("A", "int")] [("A", "5"), ("B", "6")] ∧
      hasColumn [("A", "int")] "A" = true :=
  ⟨by decide, claim_C9.1 [("A", "int")] [("A", "5"), ("B", "6")] "A" (by decide)⟩

/-! ### Claim C4 -/

/-- The watcher's insert loop accounts for every row: successes plus
failures equal the batch length. -/
theorem insertLoopW_count (ok : Nat → Bool) :
    ∀ (i : Nat) (l : List Record),
      (insertLoopW ok i l).1 + (insertLoopW ok i l).2.1 = l.length
  | _, [] => rfl
  | i, r :: rest => by
    have ih := insertLoopW_count ok (i + 1) rest
    cases hok : ok i <;> simp [insertLoopW, hok] <;> omega

/-- The server's insert loop accounts for every row, provided no row is
skipped for lacking declared columns. -/
theorem insertLoopS_count (colTypes : List (String × String)) (ok : Nat → Bool) :
    ∀ (i : Nat) (l : List Record),
      (∀ r ∈ l, (validColumnsS colTypes r).isEmpty = false) →
      (insertLoopS colTypes ok i l).1 + (insertLoopS colTypes ok i l).2.1 = l.length
  | _, [], _ => rfl
  | i, r :: rest, h => by
    have ih := insertLoopS_count colTypes ok (i + 1) rest
      (fun x hx => h x (List.mem_cons_of_mem _ hx))
    have hv := h r (List.mem_cons_self _ _)
    cases hok : ok i <;> simp [insertLoopS, hv, hok] <;> omega

/-- C4 (amended): the watcher's load accounts for every record —
`successCount + errorCount = N` unconditionally; the server's load does so
provided every record keeps at least one declared column (rows whose every
column is unknown are skipped by `continue`, see the counterexample). -/
theorem claim_C4 :
    (∀ (t : String) (schema : Option TableSchema) (data table : List Record)
        (ok : Nat → Bool) (o : OutcomeW),
      (uploadW t schema data table TxFail.noFail ok).outcome = some o →
        o.successCount + o.errorCount = data.length) ∧
      (∀ (t : String) (colTypes : List (String × String))
          (data table : List Record) (ok : Nat → Bool) (o : OutcomeS),
        (∀ r ∈ data, (validColumnsS colTypes r).isEmpty = false) →
        (uploadS t colTypes data table TxFail.noFail ok).outcome = some o →
          o.successCount + o.errorCount = data.length) := by
  constructor
  · intro t schema data table ok o ho
    have hc := insertLoopW_count ok 0 (data.map (fun r => mapColumns r schema))
    have hlen : (data.map (fun r => mapColumns r schema)).length = data.length :=
      List.length_map _ _
    cases hw1 : (computeWindowW t (data.map (fun r => mapColumns r schema))).1 <;>
      cases hw2 : (computeWindowW t (data.map (fun r => mapColumns r schema))).2.1 <;>
        simp [uploadW, hw1, hw2] at ho <;>
          rw [← ho] <;> simp <;> omega
  · intro t colTypes data table ok o hvalid ho
    have hc := insertLoopS_count colTypes ok 0 data hvalid
    cases hw1 : (computeWindowS t data).1 <;>
      cases hw2 : (computeWindowS t data).2.1 <;>
        simp [uploadS, hw1, hw2] at ho <;>
          rw [← ho] <;> simp <;> omega

/-- C4 counterexample: a one-record batch whose only column the destination
does not declare yields `successCount = 0` and `errorCount = 0` in the
server variant — the record's fate is dropped (`0 + 0 ≠ 1`). -/
theorem claim_C4_counterexample :
    ((uploadS "SNJ_SRP_DETAIL" [("A", "varchar")] [[("FOO", "1")]] []
        TxFail.noFail (fun _ => true)).outcome.map
      (fun o => o.successCount + o.errorCount)) = some 0 ∧
      ([[("FOO", "1")]] : List Record).length = 1 := by
  constructor
  · decide
  · decide

/-- Witness for C4 at a concrete two-row watcher load with one failure. -/
theorem claim_C4_witness :
    (uploadW "SNJ_SRP_DETAIL" none [[("A", "1")], [("B", "2")]] []
        TxFail.noFail (fun i => decide (i = 0))).outcome =
      some ⟨true, 1, 1, none, none, []⟩ ∧
      (1 : Nat) + 1 = ([[("A", "1")], [("B", "2")]] : List Record).length :=
  ⟨by decide,
    claim_C4.1 "SNJ_SRP_DETAIL" none [[("A", "1")], [("B", "2")]] []
      (fun i => decide (i = 0)) ⟨true, 1, 1, none, none, []⟩ (by decide)⟩

/-! ### Claim C3 -/

/-- The server's insert loop when every row reaches its INSERT and every
INSERT succeeds: all rows stored, no errors. -/
theorem insertLoopS_allok (colTypes : List (String × String)) (ok : Nat → Bool) :
    ∀ (i : Nat) (l : List Record),
      (∀ r ∈ l, (validColumnsS colTypes r).isEmpty = false) →
      (∀ m, i ≤ m → m < i + l.length → ok m = true) →
      insertLoopS colTypes ok i l =
        (l.length, 0, [], l.map (validColumnsS colTypes))
  | _, [], _, _ => rfl
  | i, r :: rest, hv, hok => by
    have ih := insertLoopS_allok colTypes ok (i + 1) rest
      (fun x hx => hv x (List.mem_cons_of_mem _ hx))
      (fun m h1 h2 => hok m (by omega) (by simp at h2 ⊢; omega))
    have hvr := hv r (List.mem_cons_self _ _)
    have hoki : ok i = true := hok i le_rfl (by simp)
    rw [insertLoopS]
    simp [hvr, hoki, ih]

/-- The server's insert loop when exactly the row at global index `j`
fails its INSERT and every other row succeeds: `N - 1` successes, one
error entry carrying the 1-based index `j + 1`, and the stored rows are
the filtered projections of all rows except the `j`-th. -/
theorem insertLoopS_onefail (colTypes : List (String × String)) (ok : Nat → Bool) :
    ∀ (i : Nat) (l : List Record) (j : Nat),
      i ≤ j → j < i + l.length →
      (∀ r ∈ l, (validColumnsS colTypes r).isEmpty = false) →
      (∀ m, i ≤ m → m < i + l.length → (ok m = true ↔ m ≠ j)) →
      insertLoopS colTypes ok i l =
        (l.length - 1, 1, [j + 1],
          (l.eraseIdx (j - i)).map (validColumnsS colTypes))
  | i, [], j, hij, hjlt, _, _ => by simp at hjlt; omega
  | i, r :: rest, j, hij, hjlt, hv, hok => by
    have hvr := hv r (List.mem_cons_self _ _)
    by_cases hj : i = j
    · subst hj
      have hoki : ok i = false :=
        Bool.eq_false_iff.mpr (fun hc => (hok i le_rfl (by simp)).mp hc rfl)
      have hrest := insertLoopS_allok colTypes ok (i + 1) rest
        (fun x hx => hv x (List.mem_cons_of_mem _ hx))
        (fun m h1 h2 => (hok m (by omega) (by simp at h2 ⊢; omega)).mpr (by omega))
      rw [insertLoopS]
      simp [hvr, hoki, hrest]
    · have hij2 : i + 1 ≤ j := by omega
      have hoki : ok i = true := (hok i le_rfl (by simp)).mpr (by omega)
      have hrestlen : 1 ≤ rest.length := by
        simp at hjlt
        omega
      have ih := insertLoopS_onefail colTypes ok (i + 1) rest j hij2
        (by simp at hjlt ⊢; omega)
        (fun x hx => hv x (List.mem_cons_of_mem _ hx))
        (fun m h1 h2 => hok m (by omega) (by simp at h2 ⊢; omega))
      have e2 : (r :: rest).eraseIdx (j - i) = r :: rest.eraseIdx (j - (i + 1)) := by
        have hji : j - i = (j - (i + 1)) + 1 := by omega
        rw [hji]
        rfl
      rw [insertLoopS]
      simp only [hvr, Bool.false_eq_true, if_false, hoki, if_true, ih, e2,
        List.map_cons, List.length_cons]
      refine congrArg (fun n => (n, 1, [j + 1],
        validColumnsS colTypes r ::
          (rest.eraseIdx (j - (i + 1))).map (validColumnsS colTypes))) ?_
      omega

/-- C3: in a batch of `N` records that all reach their single-row INSERT,
when exactly the record at 1-based position `K` fails and all others
succeed, the outcome reports `successCount = N - 1`, `errorCount = 1`, and
exactly one error entry with row index `K`; the records after `K` are
still inserted (the stored rows are all records except the `K`-th,
column-filtered). -/
theorem claim_C3 (t : String) (colTypes : List (String × String))
    (data table : List Record) (ok : Nat → Bool) (K : Nat)
    (hK1 : 1 ≤ K) (hK2 : K ≤ data.length)
    (hvalid : ∀ r ∈ data, (validColumnsS colTypes r).isEmpty = false)
    (hok : ∀ m < data.length, (ok m = true ↔ m ≠ K - 1)) :
    (uploadS t colTypes data table TxFail.noFail ok).outcome.map
        (fun o => (o.successCount, o.errorCount, o.errors)) =
      some (data.length - 1, 1, [K]) ∧
      (insertLoopS colTypes ok 0 data).2.2.2 =
        (data.eraseIdx (K - 1)).map (validColumnsS colTypes) := by
  have hl := insertLoopS_onefail colTypes ok 0 data (K - 1) (Nat.zero_le _)
    (by omega) hvalid (fun m _ h2 => hok m (by omega))
  have hK : K - 1 + 1 = K := by omega
  rw [hK] at hl
  simp only [Nat.sub_zero] at hl
  constructor
  · cases hw1 : (computeWindowS t data).1 <;>
      cases hw2 : (computeWindowS t data).2.1 <;>
        simp [uploadS, hw1, hw2, hl]
  · rw [hl]

/-- Witness for C3: three rows, the second one failing. -/
theorem claim_C3_witness :
    (uploadS "SNJ_SRP_DETAIL" [("A", "varchar")]
          [[("A", "1")], [("A", "2")], [("A", "3")]] [] TxFail.noFail
          (fun i => decide (i ≠ 1))).outcome.map
        (fun o => (o.successCount, o.errorCount, o.errors)) =
      some (([[("A", "1")], [("A", "2")], [("A", "3")]] : List Record).length - 1,
        1, [2]) ∧
      (insertLoopS [("A", "varchar")] (fun i => decide (i ≠ 1)) 0
          [[("A", "1")], [("A", "2")], [("A", "3")]]).2.2.2 =
        (([[("A", "1")], [("A", "2")], [("A", "3")]] : List Record).eraseIdx
          (2 - 1)).map (validColumnsS [("A", "varchar")]) :=
  claim_C3 "SNJ_SRP_DETAIL" [("A", "varchar")]
    [[("A", "1")], [("A", "2")], [("A", "3")]] [] (fun i => decide (i ≠ 1)) 2
    (by decide) (by decide) (by decide) (by decide)

/-! ### Claim C6 -/

theorem count_dropWhile_eq (p : Char → Bool) (c : Char) (hc : p c = false) :
    ∀ l : List Char, (l.dropWhile p).count c = l.count c
  | [] => rfl
  | a :: as => by
    by_cases hpa : p a = true
    · have hac : ¬(a = c) := fun h => by
        rw [h, hc] at hpa
        exact Bool.noConfusion hpa
      have hca : ¬(c = a) := fun h => hac h.symm
      simp [List.dropWhile_cons, hpa, List.count_cons, hca,
        count_dropWhile_eq p c hc as]
    · simp [List.dropWhile_cons, hpa]

/-- Trimming preserves the number of non-whitespace characters. -/
theorem count_jsTrim (s : String) (c : Char) (hc : isSpaceC c = false) :
    (jsTrim s).data.count c = s.data.count c := by
  show (((s.data.dropWhile isSpaceC).reverse.dropWhile isSpaceC).reverse).count c
      = s.data.count c
  rw [List.count_reverse, count_dropWhile_eq _ _ hc, List.count_reverse,
    count_dropWhile_eq _ _ hc]

theorem isSpaceC_swapC (c : Char) : isSpaceC (swapC c) = isSpaceC c := by
  unfold swapC
  split
  case _ h =>
    rw [h]
    decide
  case _ => rfl

theorem dropWhile_map_swapC :
    ∀ l : List Char,
      (l.map swapC).dropWhile isSpaceC = (l.dropWhile isSpaceC).map swapC
  | [] => rfl
  | a :: as => by
    by_cases hpa : isSpaceC a = true
    · have hps : isSpaceC (swapC a) = true := by rw [isSpaceC_swapC]; exact hpa
      simp [List.dropWhile_cons, hpa, hps, dropWhile_map_swapC as]
    · have hps : ¬isSpaceC (swapC a) = true := by rw [isSpaceC_swapC]; exact hpa
      simp [List.dropWhile_cons, hpa, hps]

/-- Trimming commutes with the separator swap. -/
theorem jsTrim_swapSeps (s : String) :
    (jsTrim (swapSeps s)).data = ((jsTrim s).data).map swapC := by
  show (((s.data.map swapC).dropWhile isSpaceC).reverse.dropWhile
      isSpaceC).reverse =
    ((((s.data.dropWhile isSpaceC).reverse.dropWhile isSpaceC).reverse).map swapC)
  rw [dropWhile_map_swapC, ← List.map_reverse, dropWhile_map_swapC,
    ← List.map_reverse]

theorem lastIndexOf_of_not_mem (c : Char) :
    ∀ l : List Char, c ∉ l → lastIndexOf c l = -1
  | [], _ => rfl
  | a :: as, h => by
    have h1 : c ∉ as := fun hx => h (List.mem_cons_of_mem _ hx)
    have h2 : ¬(a = c) := fun hx => h (hx ▸ List.mem_cons_self _ _)
    rw [lastIndexOf]
    simp [lastIndexOf_of_not_mem c as h1, h2]

theorem lastIndexOf_nonneg_of_mem (c : Char) :
    ∀ l : List Char, c ∈ l → 0 ≤ lastIndexOf c l
  | a :: as, h => by
    rw [lastIndexOf]
    by_cases hm : c ∈ as
    · have h0 := lastIndexOf_nonneg_of_mem c as hm
      have h1 : lastIndexOf c as ≥ 0 := h0
      simp only [h1, if_true]
      omega
    · rcases List.mem_cons.mp h with h1 | h1
      · have hnot := lastIndexOf_of_not_mem c as hm
        rw [hnot]
        simp [h1.symm]
      · exact absurd h1 hm

theorem removeAll_of_not_mem (c : Char) (l : List Char) (h : c ∉ l) :
    removeAll c l = l := by
  apply List.filter_eq_self.mpr
  intro a ha
  simp only [Bool.not_eq_true']
  rw [decide_eq_false_iff_not]
  intro hac
  exact h (hac ▸ ha)

theorem map_swapC_id : ∀ l : List Char, '.' ∉ l → l.map swapC = l
  | [], _ => rfl
  | a :: as, h => by
    have h1 : '.' ∉ as := fun hx => h (List.mem_cons_of_mem _ hx)
    have h2 : ¬(a = '.') := fun hx => h (hx ▸ List.mem_cons_self _ _)
    simp only [List.map_cons, map_swapC_id as h1]
    rw [swapC, if_neg h2]

/-- Replacing the (unique) comma of the swapped text restores the
original. -/
theorem replaceFirst_swap :
    ∀ l : List Char, l.count '.' = 1 → ',' ∉ l →
      replaceFirst ',' '.' (l.map swapC) = l
  | [], h1, _ => by simp at h1
  | a :: as, h1, h0 => by
    have h0as : ',' ∉ as := fun hx => h0 (List.mem_cons_of_mem _ hx)
    by_cases ha : a = '.'
    · subst ha
      have hdots : as.count '.' = 0 := by
        rw [List.count_cons_self] at h1
        omega
      have hnotmem : '.' ∉ as := List.count_eq_zero.mp hdots
      simp only [List.map_cons]
      rw [show swapC '.' = ',' from rfl]
      rw [replaceFirst, if_pos rfl]
      rw [map_swapC_id as hnotmem]
    · have hcount : as.count '.' = 1 := by
        rwa [List.count_cons_of_ne (fun h => ha h.symm)] at h1
      have hacomma : ¬(a = ',') := fun hx => h0 (hx ▸ List.mem_cons_self _ _)
      simp only [List.map_cons]
      rw [show swapC a = a from by rw [swapC, if_neg ha]]
      rw [replaceFirst, if_neg hacomma]
      rw [replaceFirst_swap as hcount h0as]

/-- The separator heuristic maps the swapped text and the original text to
the same normalised character list. -/
theorem normalizeSeparators_swap (l : List Char) (h1 : l.count '.' = 1)
    (h0 : l.count ',' = 0) :
    normalizeSeparators (l.map swapC) = normalizeSeparators l := by
  have hdot_mem : '.' ∈ l := by
    by_contra hmem
    rw [List.count_eq_zero.mpr hmem] at h1
    exact Nat.noConfusion h1
  have hcomma_notmem : ',' ∉ l := List.count_eq_zero.mp h0
  have ha := lastIndexOf_nonneg_of_mem '.' l hdot_mem
  have hb := lastIndexOf_of_not_mem ',' l hcomma_notmem
  have hdot_not : '.' ∉ l.map swapC := by
    intro hm
    rcases List.mem_map.mp hm with ⟨x, _, hfx⟩
    rw [swapC] at hfx
    by_cases hx : x = '.'
    · rw [if_pos hx] at hfx
      exact absurd hfx (by decide)
    · rw [if_neg hx] at hfx
      exact hx hfx
  have hcomma_mem : ',' ∈ l.map swapC :=
    List.mem_map.mpr ⟨'.', hdot_mem, rfl⟩
  have ha' := lastIndexOf_of_not_mem '.' _ hdot_not
  have hb' := lastIndexOf_nonneg_of_mem ',' _ hcomma_mem
  have hR : normalizeSeparators l = removeAll ',' l := by
    simp only [normalizeSeparators]
    rw [if_pos (by omega)]
  have hL : normalizeSeparators (l.map swapC) =
      replaceFirst ',' '.' (removeAll '.' (l.map swapC)) := by
    simp only [normalizeSeparators]
    rw [if_neg (by omega), if_pos (by omega)]
  rw [hL, hR, removeAll_of_not_mem _ _ hdot_not,
    removeAll_of_not_mem _ _ hcomma_notmem]
  exact replaceFirst_swap l h1 hcomma_notmem

/-- C6: the last-occurring separator is the decimal separator — both
`"55,000.50"` and `"55.000,50"` evaluate to 55000.50 — and for any numeric
text with a single `.` and no `,`, writing the same text with the single
separator as `,` instead yields the same `parseNumeric` result. -/
theorem claim_C6 :
    parseNumeric (some "55,000.50") = some (JSNum.finite (mkRat 110001 2)) ∧
      parseNumeric (some "55.000,50") = some (JSNum.finite (mkRat 110001 2)) ∧
      (∀ s : String, s.data.count '.' = 1 → s.data.count ',' = 0 →
        parseNumeric (some (swapSeps s)) = parseNumeric (some s)) := by
  refine ⟨by decide, by decide, ?_⟩
  intro s h1 h0
  have hs : ¬(s = "") := by
    intro h
    subst h
    exact Nat.noConfusion h1
  have hs' : ¬(swapSeps s = "") := by
    intro h
    have hd : (swapSeps s).data = [] := by rw [h]
    simp only [swapSeps] at hd
    rw [List.map_eq_nil_iff] at hd
    rw [hd] at h1
    exact Nat.noConfusion h1
  have harg : normalizeSeparators (jsTrim (swapSeps s)).data =
      normalizeSeparators (jsTrim s).data := by
    rw [jsTrim_swapSeps]
    exact normalizeSeparators_swap (jsTrim s).data
      (by rw [count_jsTrim s '.' (by decide)]; exact h1)
      (by rw [count_jsTrim s ',' (by decide)]; exact h0)
  simp only [parseNumeric, hs, hs', if_false, harg]

/-- Witness for C6's universal clause at `"2.5"` versus `"2,5"`. -/
theorem claim_C6_witness :
    ("2.5" : String).data.count '.' = 1 ∧
      ("2.5" : String).data.count ',' = 0 ∧
      parseNumeric (some (swapSeps "2.5")) = parseNumeric (some "2.5") :=
  ⟨by decide, by decide, claim_C6.2.2 "2.5" (by decide) (by decide)⟩

/-! ### Claim C1 -/

theorem ltChars_irrefl : ∀ l : List Char, ltChars l l = false
  | [] => rfl
  | a :: as => by simp [ltChars, lt_irrefl, ltChars_irrefl as]

theorem ltChars_trans :
    ∀ (a b c : List Char), ltChars a b = true → ltChars b c = true →
      ltChars a c = true
  | [], [], _, h1, _ => by simp [ltChars] at h1
  | [], _ :: _, [], _, h2 => by simp [ltChars] at h2
  | [], _ :: _, _ :: _, _, _ => rfl
  | _ :: _, [], _, h1, _ => by simp [ltChars] at h1
  | _ :: _, _ :: _, [], _, h2 => by simp [ltChars] at h2
  | x :: xs, y :: ys, z :: zs, h1, h2 => by
    rw [ltChars] at h1 h2 ⊢
    by_cases hxy : x < y
    · by_cases hyz : y < z
      · have hxz : x < z := lt_trans hxy hyz
        simp [hxz]
      · by_cases hzy : z < y
        · simp [hyz, hzy] at h2
        · have hyzeq : y = z := le_antisymm (not_lt.mp hzy) (not_lt.mp hyz)
          subst hyzeq
          simp [hxy]
    · by_cases hyx : y < x
      · simp [hxy, hyx] at h1
      · have hxyeq : x = y := le_antisymm (not_lt.mp hyx) (not_lt.mp hxy)
        subst hxyeq
        simp only [lt_irrefl, if_false] at h1 h2 ⊢
        by_cases hxz : x < z
        · simp [hxz]
        · by_cases hzx : z < x
          · simp [hxz, hzx] at h2
          · simp only [hxz, hzx, if_false] at h2 ⊢
            exact ltChars_trans xs ys zs h1 h2

theorem ltChars_connex :
    ∀ (a b : List Char), ltChars a b = false → ltChars b a = false → a = b
  | [], [], _, _ => rfl
  | [], _ :: _, h1, _ => by simp [ltChars] at h1
  | _ :: _, [], _, h2 => by simp [ltChars] at h2
  | x :: xs, y :: ys, h1, h2 => by
    rw [ltChars] at h1 h2
    by_cases hxy : x < y
    · simp [hxy] at h1
    · by_cases hyx : y < x
      · simp [hyx] at h2
      · have hxyeq : x = y := le_antisymm (not_lt.mp hyx) (not_lt.mp hxy)
        subst hxyeq
        simp only [lt_irrefl, if_false] at h1 h2
        rw [ltChars_connex xs ys h1 h2]

theorem ltStr_irrefl (s : String) : ltStr s s = false :=
  ltChars_irrefl s.data

theorem ltStr_asymm {a b : String} (h : ltStr a b = true) : ltStr b a = false := by
  cases hba : ltStr b a
  · rfl
  · have := ltChars_trans a.data b.data a.data h hba
    rw [ltChars_irrefl a.data] at this
    exact Bool.noConfusion this

/-- Transitivity of string non-exceedance: if `a ≤ b` and `b ≤ c` (each as
`¬ · < ·`) then `a ≤ c`. -/
theorem ltStr_le_trans {a b c : String} (h1 : ltStr b a = false)
    (h2 : ltStr c b = false) : ltStr c a = false := by
  cases hca : ltStr c a
  · rfl
  · exfalso
    by_cases hbc : ltStr b c = true
    · have := ltChars_trans b.data c.data a.data hbc hca
      rw [show ltChars b.data a.data = ltStr b a from rfl, h1] at this
      exact Bool.noConfusion this
    · have hbc' : ltStr b c = false := Bool.eq_false_iff.mpr hbc
      have hbceq : b.data = c.data := ltChars_connex b.data c.data hbc' h2
      have : ltStr b a = true := by
        show ltChars b.data a.data = true
        rw [hbceq]
        exact hca
      rw [h1] at this
      exact Bool.noConfusion this

/-- `jsMin` never exceeds its new argument. -/
theorem jsMin_bound (mn : Option String) (p : String) :
    ∃ m', jsMin mn p = some m' ∧ ltStr p m' = false := by
  cases mn with
  | none => exact ⟨p, rfl, ltStr_irrefl p⟩
  | some m =>
    by_cases h : ltStr p m = true
    · exact ⟨p, by simp [jsMin, h], ltStr_irrefl p⟩
    · exact ⟨m, by simp [jsMin, h], Bool.eq_false_iff.mpr h⟩

/-- `jsMin` never exceeds its old value. -/
theorem jsMin_mono (m p : String) :
    ∃ m', jsMin (some m) p = some m' ∧ ltStr m m' = false := by
  by_cases h : ltStr p m = true
  · exact ⟨p, by simp [jsMin, h], ltStr_asymm h⟩
  · exact ⟨m, by simp [jsMin, h], ltStr_irrefl m⟩

/-- `jsMax` is at least its new argument. -/
theorem jsMax_bound (mx : Option String) (p : String) :
    ∃ m', jsMax mx p = some m' ∧ ltStr m' p = false := by
  cases mx with
  | none => exact ⟨p, rfl, ltStr_irrefl p⟩
  | some m =>
    by_cases h : ltStr m p = true
    · exact ⟨p, by simp [jsMax, h], ltStr_irrefl p⟩
    · exact ⟨m, by simp [jsMax, h], Bool.eq_false_iff.mpr h⟩

/-- `jsMax` is at least its old value. -/
theorem jsMax_mono (m p : String) :
    ∃ m', jsMax (some m) p = some m' ∧ ltStr m' m = false := by
  by_cases h : ltStr m p = true
  · exact ⟨p, by simp [jsMax, h], ltStr_asymm h⟩
  · exact ⟨m, by simp [jsMax, h], ltStr_irrefl m⟩

/-- Once the running minimum is set, further scanning can only keep it or
lower it. -/
theorem foldl_scanW_min_mono (t : String) :
    ∀ (rows : List Record) (mn : String) (mx : Option String) (st : List String),
      ∃ mn', (rows.foldl (scanW t) (some mn, mx, st)).1 = some mn' ∧
        ltStr mn mn' = false
  | [], mn, mx, st => ⟨mn, rfl, ltStr_irrefl mn⟩
  | r :: rest, mn, mx, st => by
    simp only [List.foldl_cons]
    cases hc : dateContrib r with
    | none =>
      have hstep : scanW t (some mn, mx, st) r =
          (some mn, (scanW t (some mn, mx, st) r).2.1,
            (scanW t (some mn, mx, st) r).2.2) := by
        simp [scanW, hc]
      rw [hstep]
      exact foldl_scanW_min_mono t rest mn _ _
    | some p =>
      rcases jsMin_mono mn p with ⟨m₁, hm₁, hle₁⟩
      have hstep : scanW t (some mn, mx, st) r =
          (some m₁, (scanW t (some mn, mx, st) r).2.1,
            (scanW t (some mn, mx, st) r).2.2) := by
        simp [scanW, hc, hm₁]
      rw [hstep]
      rcases foldl_scanW_min_mono t rest m₁ _ _ with ⟨mn', hmn', hle₂⟩
      exact ⟨mn', hmn', ltStr_le_trans hle₂ hle₁⟩

/-- Once the running maximum is set, further scanning can only keep it or
raise it. -/
theorem foldl_scanW_max_mono (t : String) :
    ∀ (rows : List Record) (mn : Option String) (mx : String) (st : List String),
      ∃ mx', (rows.foldl (scanW t) (mn, some mx, st)).2.1 = some mx' ∧
        ltStr mx' mx = false
  | [], mn, mx, st => ⟨mx, rfl, ltStr_irrefl mx⟩
  | r :: rest, mn, mx, st => by
    simp only [List.foldl_cons]
    cases hc : dateContrib r with
    | none =>
      have hstep : scanW t (mn, some mx, st) r =
          ((scanW t (mn, some mx, st) r).1, some mx,
            (scanW t (mn, some mx, st) r).2.2) := by
        simp [scanW, hc]
      rw [hstep]
      exact foldl_scanW_max_mono t rest _ mx _
    | some p =>
      rcases jsMax_mono mx p with ⟨m₁, hm₁, hle₁⟩
      have hstep : scanW t (mn, some mx, st) r =
          ((scanW t (mn, some mx, st) r).1, some m₁,
            (scanW t (mn, some mx, st) r).2.2) := by
        simp [scanW, hc, hm₁]
      rw [hstep]
      rcases foldl_scanW_max_mono t rest _ m₁ _ with ⟨mx', hmx', hle₂⟩
      exact ⟨mx', hmx', ltStr_le_trans hle₁ hle₂⟩

/-- Every contributed date bounds the final running minimum from above. -/
theorem foldl_scanW_min_bound (t : String) :
    ∀ (rows : List Record) (acc : Option String × Option String × List String)
      (r : Record) (p : String), r ∈ rows → dateContrib r = some p →
      ∃ mn', (rows.foldl (scanW t) acc).1 = some mn' ∧ ltStr p mn' = false
  | r₀ :: rest, acc, r, p, hmem, hc => by
    simp only [List.foldl_cons]
    rcases List.mem_cons.mp hmem with rfl | hmem'
    · rcases jsMin_bound acc.1 p with ⟨m₁, hm₁, hle₁⟩
      have hstep : scanW t acc r =
          (some m₁, (scanW t acc r).2.1, (scanW t acc r).2.2) := by
        simp [scanW, hc, hm₁]
      rw [hstep]
      rcases foldl_scanW_min_mono t rest m₁ _ _ with ⟨mn', hmn', hle₂⟩
      exact ⟨mn', hmn', ltStr_le_trans hle₂ hle₁⟩
    · exact foldl_scanW_min_bound t rest (scanW t acc r₀) r p hmem' hc

/-- Every contributed date bounds the final running maximum from below. -/
theorem foldl_scanW_max_bound (t : String) :
    ∀ (rows : List Record) (acc : Option String × Option String × List String)
      (r : Record) (p : String), r ∈ rows → dateContrib r = some p →
      ∃ mx', (rows.foldl (scanW t) acc).2.1 = some mx' ∧ ltStr mx' p = false
  | r₀ :: rest, acc, r, p, hmem, hc => by
    simp only [List.foldl_cons]
    rcases List.mem_cons.mp hmem with rfl | hmem'
    · rcases jsMax_bound acc.2.1 p with ⟨m₁, hm₁, hle₁⟩
      have hstep : scanW t acc r =
          ((scanW t acc r).1, some m₁, (scanW t acc r).2.2) := by
        simp [scanW, hc, hm₁]
      rw [hstep]
      rcases foldl_scanW_max_mono t rest _ m₁ _ with ⟨mx', hmx', hle₂⟩
      exact ⟨mx', hmx', ltStr_le_trans hle₁ hle₂⟩
    · exact foldl_scanW_max_bound t rest (scanW t acc r₀) r p hmem' hc

theorem addStore_mem (l : List String) (s v : String) (h : v ∈ l) :
    v ∈ addStore l s := by
  unfold addStore
  split
  · exact h
  · exact List.mem_append_left _ h

theorem addStore_self (l : List String) (s : String) : s ∈ addStore l s := by
  unfold addStore
  split
  case _ h => exact h
  case _ => exact List.mem_append_right _ (List.mem_singleton.mpr rfl)

/-- The scan never drops a store already collected. -/
theorem foldl_scanW_store_preserve (t : String) :
    ∀ (rows : List Record) (acc : Option String × Option String × List String)
      (v : String), v ∈ acc.2.2 → v ∈ (rows.foldl (scanW t) acc).2.2
  | [], _, _, h => h
  | r :: rest, acc, v, h => by
    simp only [List.foldl_cons]
    apply foldl_scanW_store_preserve t rest
    show v ∈ (scanW t acc r).2.2
    unfold scanW
    cases hs : storeVal t r with
    | none => simpa [hs] using h
    | some w => simpa [hs] using addStore_mem _ _ _ h

/-- Every record's truthy store value ends up in the collected store set. -/
theorem foldl_scanW_store_mem (t : String) :
    ∀ (rows : List Record) (acc : Option String × Option String × List String)
      (r : Record) (v : String), r ∈ rows → storeVal t r = some v →
      v ∈ (rows.foldl (scanW t) acc).2.2
  | r₀ :: rest, acc, r, v, hmem, hs => by
    simp only [List.foldl_cons]
    rcases List.mem_cons.mp hmem with rfl | hmem'
    · apply foldl_scanW_store_preserve t rest
      show v ∈ (scanW t acc r).2.2
      unfold scanW
      simp only [hs]
      exact addStore_self _ _
    · exact foldl_scanW_store_mem t rest (scanW t acc r₀) r v hmem' hs

/-- If no record carries a truthy store value, the store set stays as it
was. -/
theorem foldl_scanW_store_none (t : String) :
    ∀ (rows : List Record) (acc : Option String × Option String × List String),
      (∀ r ∈ rows, storeVal t r = none) →
      (rows.foldl (scanW t) acc).2.2 = acc.2.2
  | [], _, _ => rfl
  | r :: rest, acc, h => by
    simp only [List.foldl_cons]
    have hr := h r (List.mem_cons_self _ _)
    rw [foldl_scanW_store_none t rest (scanW t acc r)
      (fun x hx => h x (List.mem_cons_of_mem _ hx))]
    show (scanW t acc r).2.2 = acc.2.2
    unfold scanW
    simp [hr]

/-- The watcher's insert loop under an all-success oracle stores every row
with no errors. -/
theorem insertLoopW_allok (ok : Nat → Bool) (hok : ∀ m, ok m = true) :
    ∀ (i : Nat) (l : List Record), insertLoopW ok i l = (l.length, 0, l)
  | _, [] => rfl
  | i, r :: rest => by
    rw [insertLoopW]
    simp [hok i, insertLoopW_allok ok hok (i + 1) rest]

/-- Unpacking `goodDateRow`: the designated column's value, its truthiness,
and the fact that it is exactly the window scan's contribution. -/
theorem goodDateRow_contrib (t : String) (r : Record)
    (h : goodDateRow t r = true) :
    ∃ v, getProp r (dateColumnOf t) = some v ∧ ¬(v = "") ∧
      ¬(parseDateStr v = "") ∧ dateContrib r = some (parseDateStr v) := by
  unfold goodDateRow at h
  cases hg : getProp r (dateColumnOf t) with
  | none =>
    rw [hg] at h
    cases hj : jsOr (getProp r "SALES_DATE") (getProp r "Tanggal") <;>
      rw [hj] at h <;> exact Bool.noConfusion h
  | some v =>
    cases hj : jsOr (getProp r "SALES_DATE") (getProp r "Tanggal") with
    | none =>
      rw [hg, hj] at h
      exact Bool.noConfusion h
    | some w =>
      rw [hg, hj] at h
      simp only [Bool.and_eq_true, decide_eq_true_eq, Bool.not_eq_true',
        decide_eq_false_iff_not] at h
      rcases h with ⟨⟨hvw, hv1⟩, hv2⟩
      subst hvw
      refine ⟨v, rfl, hv1, hv2, ?_⟩
      unfold dateContrib
      rw [hj]
      simp [hv1, hv2]

/-- For the two real tables, `storeVal` is the truthiness-filtered value of
the designated store column. -/
theorem storeVal_eq_designated (t : String)
    (ht : t = "SNJ_SRP_DETAIL" ∨ t = "SALES_INVOICE_ACCURATE_ONLINE")
    (r : Record) :
    storeVal t r =
      match getProp r (storeColumnOf t) with
      | some v => if v = "" then none else some v
      | none => none := by
  rcases ht with rfl | rfl
  · rw [show storeColumnOf "SNJ_SRP_DETAIL" = "ORG_CODE_NAME" from by decide]
    unfold storeVal
    rw [if_pos rfl]
  · rw [show storeColumnOf "SALES_INVOICE_ACCURATE_ONLINE" = "Gudang" from by decide]
    unfold storeVal
    rw [if_neg (by decide), if_pos rfl]

/-- Truthy designated store column ⇒ `storeVal` carries its value. -/
theorem storeVal_of_truthy (t : String)
    (ht : t = "SNJ_SRP_DETAIL" ∨ t = "SALES_INVOICE_ACCURATE_ONLINE")
    (r : Record) (h : truthy (getProp r (storeColumnOf t)) = true) :
    ∃ v, getProp r (storeColumnOf t) = some v ∧ ¬(v = "") ∧
      storeVal t r = some v := by
  rw [storeVal_eq_designated t ht r]
  cases hg : getProp r (storeColumnOf t) with
  | none =>
    rw [hg] at h
    exact Bool.noConfusion h
  | some v =>
    rw [hg] at h
    simp only [truthy, Bool.not_eq_true', decide_eq_false_iff_not] at h
    exact ⟨v, rfl, h, by simp [h]⟩

/-- Falsy designated store column ⇒ no store contribution. -/
theorem storeVal_of_falsy (t : String)
    (ht : t = "SNJ_SRP_DETAIL" ∨ t = "SALES_INVOICE_ACCURATE_ONLINE")
    (r : Record) (h : truthy (getProp r (storeColumnOf t)) = false) :
    storeVal t r = none := by
  rw [storeVal_eq_designated t ht r]
  cases hg : getProp r (storeColumnOf t) with
  | none => rfl
  | some v =>
    rw [hg] at h
    have hv : v = "" := by
      simp only [truthy] at h
      simpa using h
    simp [hv]

/-- The watcher's load under no transaction fault, a window, and an
all-success oracle: filtered table plus all mapped rows, full counts. -/
theorem uploadW_noFail_run (t : String) (schema : Option TableSchema)
    (data table : List Record) (ok : Nat → Bool) (hok : ∀ m, ok m = true)
    (mn mx : String) (stores : List String)
    (hw : computeWindowW t (data.map (fun r => mapColumns r schema)) =
      (some mn, some mx, stores)) :
    uploadW t schema data table TxFail.noFail ok =
      ⟨table.filter (fun r => !(deletePredW t mn mx stores r)) ++
          data.map (fun r => mapColumns r schema),
        some ⟨true, (data.map (fun r => mapColumns r schema)).length, 0,
          some mn, some mx, stores⟩, true⟩ := by
  have hins := insertLoopW_allok ok hok 0 (data.map (fun r => mapColumns r schema))
  simp [uploadW, hw, hins]

/-- C1 (amended): loading the same batch twice into an initially empty
table is idempotent — the second load's delete removes exactly the first
load's rows before reinserting them — provided (a) every record's window
date comes from its designated date column (`goodDateRow`), and (b) the
designated store column is truthy for every record or falsy for every
record.  (Without (a) the window can be shadowed by the other candidate
date column; without (b) a record lacking the store value escapes the
store-scoped delete — see the counterexample.) -/
theorem claim_C1 (t : String) (schema : Option TableSchema)
    (data : List Record) (ok : Nat → Bool) (hok : ∀ m, ok m = true)
    (ht : t = "SNJ_SRP_DETAIL" ∨ t = "SALES_INVOICE_ACCURATE_ONLINE")
    (h1 : ∀ r ∈ data.map (fun r => mapColumns r schema), goodDateRow t r = true)
    (h2 : (∀ r ∈ data.map (fun r => mapColumns r schema),
            truthy (getProp r (storeColumnOf t)) = true) ∨
          (∀ r ∈ data.map (fun r => mapColumns r schema),
            truthy (getProp r (storeColumnOf t)) = false)) :
    (uploadW t schema data
        ((uploadW t schema data [] TxFail.noFail ok).table)
        TxFail.noFail ok).table =
      (uploadW t schema data [] TxFail.noFail ok).table := by
  cases hdata : data.map (fun r => mapColumns r schema) with
  | nil => simp [uploadW, hdata, computeWindowW, insertLoopW]
  | cons r₀ rest =>
    have hr₀mem : r₀ ∈ data.map (fun r => mapColumns r schema) := by
      rw [hdata]
      exact List.mem_cons_self _ _
    rcases goodDateRow_contrib t r₀ (h1 r₀ hr₀mem) with ⟨v₀, _, _, _, hc₀⟩
    rcases foldl_scanW_min_bound t (data.map (fun r => mapColumns r schema))
      (none, none, []) r₀ _ hr₀mem hc₀ with ⟨mn, hmn, _⟩
    rcases foldl_scanW_max_bound t (data.map (fun r => mapColumns r schema))
      (none, none, []) r₀ _ hr₀mem hc₀ with ⟨mx, hmx, _⟩
    have hw : computeWindowW t (data.map (fun r => mapColumns r schema)) =
        (some mn, some mx,
          (computeWindowW t (data.map (fun r => mapColumns r schema))).2.2) := by
      show (data.map (fun r => mapColumns r schema)).foldl (scanW t)
          (none, none, []) = _
      rw [← hmn, ← hmx]
      rfl
    have hpred : ∀ r ∈ data.map (fun r => mapColumns r schema),
        deletePredW t mn mx
          ((computeWindowW t (data.map (fun r => mapColumns r schema))).2.2)
          r = true := by
      intro r hr
      rcases goodDateRow_contrib t r (h1 r hr) with ⟨v, hgv, hv1, hv2, hcv⟩
      rcases foldl_scanW_min_bound t (data.map (fun r => mapColumns r schema))
        (none, none, []) r _ hr hcv with ⟨mn', hmn', hlemn⟩
      rcases foldl_scanW_max_bound t (data.map (fun r => mapColumns r schema))
        (none, none, []) r _ hr hcv with ⟨mx', hmx', hlemx⟩
      rw [hmn] at hmn'
      rw [hmx] at hmx'
      have hmneq : mn' = mn := (Option.some.inj hmn').symm
      have hmxeq : mx' = mx := (Option.some.inj hmx').symm
      subst hmneq
      subst hmxeq
      unfold deletePredW
      rw [hgv]
      have hpd : parseDate (some v) = some (parseDateStr v) := by
        simp [parseDate, hv1]
      rw [hpd]
      simp only [hlemn, hlemx, Bool.not_false, Bool.and_true, Bool.true_and,
        Bool.and_self]
      rcases h2 with h2 | h2
      · rcases storeVal_of_truthy t ht r (h2 r hr) with ⟨s, hgs, hs1, hs2⟩
        have hmem := foldl_scanW_store_mem t
          (data.map (fun r => mapColumns r schema)) (none, none, []) r s hr hs2
        rw [hgs]
        simp only [hgs, hs1, decide_eq_false_iff_not, not_false_iff,
          Bool.not_false, Bool.true_and]
        simp [hs1]
        exact Or.inr hmem
      · have hnone : ∀ x ∈ data.map (fun r => mapColumns r schema),
            storeVal t x = none :=
          fun x hx => storeVal_of_falsy t ht x (h2 x hx)
        have hempty : (computeWindowW t
            (data.map (fun r => mapColumns r schema))).2.2 = [] :=
          foldl_scanW_store_none t
            (data.map (fun r => mapColumns r schema)) (none, none, []) hnone
        rw [hempty]
        rfl
    rw [uploadW_noFail_run t schema data [] ok hok mn mx _ hw,
      uploadW_noFail_run t schema data _ ok hok mn mx _ hw]
    simp only [List.filter_nil, List.nil_append]
    rw [List.filter_eq_nil_iff.mpr
      (fun r hr => by rw [hpred r hr]; simp)]
    exact List.nil_append _

/-- C1 counterexample: `SNJ_SRP_DETAIL`, two records on the same date, both
carrying the designated date column (`SALES_DATE`), all inserts succeeding,
table initially empty — but the second record lacks the store column, so
the second load's store-scoped delete misses the first load's copy of it:
3 rows after the second load versus 2 after the first. -/
theorem claim_C1_counterexample :
    (∀ r ∈ ([[("SALES_DATE", "2025-11-25"), ("ORG_CODE_NAME", "A")],
              [("SALES_DATE", "2025-11-25")]] : List Record),
        truthy (getProp r (dateColumnOf "SNJ_SRP_DETAIL")) = true) ∧
      ((uploadW "SNJ_SRP_DETAIL" none
          [[("SALES_DATE", "2025-11-25"), ("ORG_CODE_NAME", "A")],
           [("SALES_DATE", "2025-11-25")]]
          ((uploadW "SNJ_SRP_DETAIL" none
            [[("SALES_DATE", "2025-11-25"), ("ORG_CODE_NAME", "A")],
             [("SALES_DATE", "2025-11-25")]]
            [] TxFail.noFail (fun _ => true)).table)
          TxFail.noFail (fun _ => true)).table).length = 3 ∧
      ((uploadW "SNJ_SRP_DETAIL" none
          [[("SALES_DATE", "2025-11-25"), ("ORG_CODE_NAME", "A")],
           [("SALES_DATE", "2025-11-25")]]
          [] TxFail.noFail (fun _ => true)).table).length = 2 := by
  refine ⟨by decide, by decide, by decide⟩

/-- Witness for C1 on a uniform two-store batch. -/
theorem claim_C1_witness :
    (uploadW "SNJ_SRP_DETAIL" none
        [[("SALES_DATE", "2025-11-25"), ("ORG_CODE_NAME", "A")],
         [("SALES_DATE", "2025-11-30"), ("ORG_CODE_NAME", "B")]]
        ((uploadW "SNJ_SRP_DETAIL" none
          [[("SALES_DATE", "2025-11-25"), ("ORG_CODE_NAME", "A")],
           [("SALES_DATE", "2025-11-30"), ("ORG_CODE_NAME", "B")]]
          [] TxFail.noFail (fun _ => true)).table)
        TxFail.noFail (fun _ => true)).table =
      (uploadW "SNJ_SRP_DETAIL" none
        [[("SALES_DATE", "2025-11-25"), ("ORG_CODE_NAME", "A")],
         [("SALES_DATE", "2025-11-30"), ("ORG_CODE_NAME", "B")]]
        [] TxFail.noFail (fun _ => true)).table :=
  claim_C1 "SNJ_SRP_DETAIL" none
    [[("SALES_DATE", "2025-11-25"), ("ORG_CODE_NAME", "A")],
     [("SALES_DATE", "2025-11-30"), ("ORG_CODE_NAME", "B")]]
    (fun _ => true) (fun _ => rfl) (by decide) (by decide)
    (Or.inl (by decide))
